import Mathlib

/-!
Verification development for `queuectl`, a CLI job queue with workers,
retries, exponential backoff and a dead-letter queue (DLQ).

The store is embedded as a list of job records (the SQLite `jobs` table in
row order) together with a configuration record (the `config` table, with
its two values already parsed, abstracting `parseFloat` / `parseInt`).
Timestamps are rationals (milliseconds since the epoch); ISO-8601 strings
compare lexicographically exactly as the underlying instants compare, so a
totally ordered numeric time is a faithful model of the `TEXT` timestamp
columns. Each SQL statement of `queuectl.js` is translated into a pure
function on the job list.
-/

namespace QueueCtl

/-- Job states stored in the `state` column of the `jobs` table. -/
inductive JState where
  | pending
  | processing
  | completed
  | dead
deriving DecidableEq, Repr

/-- One row of the `jobs` table (schema created in `initDb`). -/
structure Job where
  id : String
  command : String
  state : JState
  attempts : Nat
  max_retries : Nat
  created_at : ℚ
  updated_at : ℚ
  available_at : ℚ
  last_error : Option String
deriving DecidableEq, Repr

/-- The `config` table: `backoff_base` (read with `parseFloat`) and
`default_max_retries` (read with `parseInt`), each `none` when the key is
absent. -/
structure Config where
  backoff_base : Option ℚ
  default_max_retries : Option Nat
deriving DecidableEq, Repr

/-- `parseFloat(getConfig('backoff_base') || DEFAULT_BACKOFF_BASE)` with
`DEFAULT_BACKOFF_BASE = 2`, evaluated once at worker startup. -/
def getBackoffBase (cfg : Config) : ℚ :=
  cfg.backoff_base.getD 2

/-- `parseInt(getConfig('default_max_retries') || DEFAULT_MAX_RETRIES)` with
`DEFAULT_MAX_RETRIES = 3`. -/
def getDefaultMaxRetries (cfg : Config) : Nat :=
  cfg.default_max_retries.getD 3

/-- The `WHERE state = 'pending' AND available_at <= ?` filter of the
worker's `selectStmt`: the job is execution-eligible at time `now`. -/
def jobEligible (now : ℚ) (j : Job) : Bool :=
  decide (j.state = JState.pending) && decide (j.available_at ≤ now)

/-- `selectStmt`: `SELECT id FROM jobs WHERE state = 'pending' AND
available_at <= ? ORDER BY created_at LIMIT 1`. Returns the full row; the
SQL projects to `id`. Ties on `created_at` go to the earlier row, matching
SQLite's stable row ordering. -/
def selectStmt (db : List Job) (now : ℚ) : Option Job :=
  (db.filter (jobEligible now)).argmin Job.created_at

/-- The `WHERE id = ? AND state = 'pending'` condition of `updateClaimStmt`. -/
def claimMatches (jid : String) (j : Job) : Bool :=
  decide (j.id = jid) && decide (j.state = JState.pending)

/-- The row produced by `updateClaimStmt` for a matching row:
`SET state = 'processing', attempts = attempts + 1, updated_at = ?`. -/
def claimedRow (now : ℚ) (j : Job) : Job :=
  { j with state := JState.processing, attempts := j.attempts + 1, updated_at := now }

/-- `updateClaimStmt`: `UPDATE jobs SET state = 'processing',
attempts = attempts + 1, updated_at = ? WHERE id = ? AND state = 'pending'`.
Returns `(r.changes, updated table)`. -/
def updateClaimStmt (db : List Job) (now : ℚ) (jid : String) : Nat × List Job :=
  (db.countP (claimMatches jid),
   db.map fun j => if claimMatches jid j then claimedRow now j else j)

/-- The body of the claim transaction in `workerRunLoop`, generalized so the
conditional update may run against a store (`updDb`) that differs from the
one the select saw (`selDb`) — this is the situation the `state = 'pending'`
re-check in `updateClaimStmt`'s WHERE clause guards against when another
actor claims the row first. The single-connection code runs both statements
on the same store: `claimTxn db now = claimTxnOn db db now`. -/
def claimTxnOn (selDb updDb : List Job) (now : ℚ) : Option String × List Job :=
  match selectStmt selDb now with
  | none => (none, updDb)
  | some row =>
      let r := updateClaimStmt updDb now row.id
      if r.1 = 0 then (none, r.2) else (some row.id, r.2)

/-- The claim transaction of `workerRunLoop`: atomically pick the oldest
eligible job and conditionally claim it; `jobId = null` when nothing was
selected or the conditional update changed zero rows. -/
def claimTxn (db : List Job) (now : ℚ) : Option String × List Job :=
  claimTxnOn db db now

/-- `getJobById`: `SELECT * FROM jobs WHERE id = ?` (first matching row;
`id` is the primary key). -/
def getJobById (db : List Job) (jid : String) : Option Job :=
  db.find? fun j => decide (j.id = jid)

/-- `updateJobStmt`: `UPDATE jobs SET state=?, updated_at=?, last_error=?,
available_at=? WHERE id=?`. Note the WHERE clause checks only `id`. -/
def updateJobStmt (db : List Job) (st : JState) (updated : ℚ)
    (lastError : Option String) (avail : ℚ) (jid : String) : List Job :=
  db.map fun j =>
    if decide (j.id = jid) then
      { j with state := st, updated_at := updated, last_error := lastError,
               available_at := avail }
    else j

/-- The `last_error` text recorded on a failed attempt: `exit_code=rc`. -/
def errString (rc : Int) : String :=
  "exit_code=" ++ toString rc

/-- The post-execution branch of `workerRunLoop`: fetch the claimed job,
then on `rc == 0` mark it completed; otherwise either mark it dead
(`attempts >= max_retries`) or reschedule it pending with exponential
backoff `backoffBase ^ attempts` seconds (`* 1000` converts to the
millisecond timestamps). `now` models the clock reads after execution. -/
def execStep (db : List Job) (jid : String) (rc : Int) (now : ℚ)
    (backoffBase : ℚ) : List Job :=
  match getJobById db jid with
  | none => db
  | some job =>
      if rc = 0 then
        updateJobStmt db JState.completed now none now job.id
      else if job.max_retries ≤ job.attempts then
        updateJobStmt db JState.dead now (some (errString rc)) now job.id
      else
        updateJobStmt db JState.pending now (some (errString rc))
          (now + backoffBase ^ job.attempts * 1000) job.id

/-- The recovery sweep run before the worker loop: `UPDATE jobs SET
state='pending', updated_at=? WHERE state='processing'`. -/
def recoverStmt (db : List Job) (now : ℚ) : List Job :=
  db.map fun j =>
    if decide (j.state = JState.processing) then
      { j with state := JState.pending, updated_at := now }
    else j

/-- `dlqRetry`: look up `SELECT * FROM jobs WHERE id = ? AND state = 'dead'`;
if absent, report not-found (`false`) and leave the store untouched;
otherwise `UPDATE jobs SET state='pending', attempts=0, updated_at=?,
available_at=? WHERE id=?`. -/
def dlqRetry (db : List Job) (jid : String) (now : ℚ) : Bool × List Job :=
  match db.find? (fun j => decide (j.id = jid) && decide (j.state = JState.dead)) with
  | none => (false, db)
  | some _ =>
      (true,
       db.map fun j =>
         if decide (j.id = jid) then
           { j with state := JState.pending, attempts := 0, updated_at := now,
                    available_at := now }
         else j)

/-- JavaScript `a || b` on an optional string: the empty string is falsy. -/
def jsStrOr (v : Option String) (dflt : String) : String :=
  match v with
  | none => dflt
  | some s => if s = "" then dflt else s

/-- The enqueue descriptor parsed from the JSON argument:
`{id?: string, command?: string, max_retries?: integer}`. -/
structure EnqueueDesc where
  id : Option String
  command : Option String
  max_retries : Option Nat
deriving DecidableEq, Repr

/-- `job.max_retries || parseInt(getConfig('default_max_retries') || ...)`:
in JavaScript `0` is falsy, so an explicit `0` falls through to the
configured default. -/
def effectiveMaxRetries (m : Option Nat) (cfg : Config) : Nat :=
  match m with
  | none => getDefaultMaxRetries cfg
  | some n => if n = 0 then getDefaultMaxRetries cfg else n

/-- `enqueueJson`: reject a descriptor without a command (JavaScript falsy
check, so the empty string is also rejected); choose `job.id || uuidv4()`
(`genId` models the generated UUID); insert a fresh pending row with the
three timestamps equal to `ts` and `last_error` NULL. The primary-key
constraint makes the insert fail on a duplicate id. -/
def enqueueJson (desc : EnqueueDesc) (genId : String) (cfg : Config)
    (ts : ℚ) (db : List Job) : Except String (List Job) :=
  match desc.command with
  | none => Except.error "Job must include command"
  | some c =>
      if c = "" then Except.error "Job must include command"
      else
        let jid := jsStrOr desc.id genId
        if db.any (fun j => decide (j.id = jid)) then
          Except.error "Failed to enqueue"
        else
          Except.ok (db ++
            [{ id := jid, command := c, state := JState.pending, attempts := 0,
               max_retries := effectiveMaxRetries desc.max_retries cfg,
               created_at := ts, updated_at := ts, available_at := ts,
               last_error := none }])

/-- One enqueue/claim/execute cycle, as in the spec's end-to-end scenario:
enqueue a single job into an empty store at time 0, claim at time 0, run the
command (modelled by its exit code `rc`), and report the job's final state.
`none` means the scenario broke down (enqueue rejected or no job claimed). -/
def scenarioOneCycle (cmd : String) (mr : Option Nat) (cfg : Config)
    (rc : Int) : Option JState :=
  match enqueueJson { id := some "j", command := some cmd, max_retries := mr }
      "gen" cfg 0 [] with
  | Except.error _ => none
  | Except.ok db =>
      let s1 := claimTxn db 0
      match s1.1 with
      | none => none
      | some jid =>
          (getJobById (execStep s1.2 jid rc 0 (getBackoffBase cfg)) jid).map Job.state

/-- Control position of one worker process inside `workerRunLoop`. -/
inductive WPhase where
  | looping
  | executing (jid : String)
  | exited
deriving DecidableEq, Repr

/-- Configuration of one worker process: the job store it shares, its
control position, and the `shuttingDown` flag set by the signal handlers. -/
structure WState where
  db : List Job
  phase : WPhase
  shuttingDown : Bool
deriving DecidableEq, Repr

/-- State reached right before the `while` loop of `workerRunLoop`: the
recovery sweep has run, the flag is clear, the loop is at its top. -/
def workerInit (db0 : List Job) (t0 : ℚ) : WState :=
  { db := recoverStmt db0 t0, phase := WPhase.looping, shuttingDown := false }

/-- Small-step semantics of the `while` loop of `workerRunLoop`. A
termination signal (`signal`) may arrive at any moment and only sets the
flag; the flag is consulted solely at the top of the loop (`exitLoop`).
An iteration either claims nothing and polls (`claimNone`), or claims a job
(`claimSome`), runs its command to some exit code, and persists the final
transition (`finish`) before reaching the top of the loop again. -/
inductive WStep : WState → WState → Prop where
  | signal (s : WState) :
      WStep s { s with shuttingDown := true }
  | exitLoop (s : WState) :
      s.phase = WPhase.looping → s.shuttingDown = true →
      WStep s { s with phase := WPhase.exited }
  | claimNone (s : WState) (now : ℚ) (db' : List Job) :
      s.phase = WPhase.looping → s.shuttingDown = false →
      claimTxn s.db now = (none, db') →
      WStep s { s with db := db' }
  | claimSome (s : WState) (now : ℚ) (jid : String) (db' : List Job) :
      s.phase = WPhase.looping → s.shuttingDown = false →
      claimTxn s.db now = (some jid, db') →
      WStep s { s with db := db', phase := WPhase.executing jid }
  | finish (s : WState) (jid : String) (rc : Int) (now : ℚ) (base : ℚ) :
      s.phase = WPhase.executing jid →
      WStep s { s with db := execStep s.db jid rc now base,
                       phase := WPhase.looping }

/-- Invariant of the worker loop: while executing a claimed job, that job is
the only record this worker may have left in `processing`; at a loop
boundary or after exit, no record is in `processing` at all (single-worker
store). -/
def workerInv (s : WState) : Prop :=
  match s.phase with
  | WPhase.executing jid => ∀ j ∈ s.db, j.state = JState.processing → j.id = jid
  | _ => ∀ j ∈ s.db, j.state ≠ JState.processing

/-! Concrete sample records used to evaluate the definitions on closed
inputs. -/

/-- A freshly enqueued job: pending, no attempts, default retry budget. -/
def samplePending : Job :=
  { id := "a", command := "run", state := JState.pending, attempts := 0,
    max_retries := 3, created_at := 0, updated_at := 0, available_at := 0,
    last_error := none }

/-- A job claimed three times, currently being executed. -/
def sampleProcessing3 : Job :=
  { samplePending with state := JState.processing, attempts := 3 }

/-- A job claimed once, currently being executed. -/
def sampleProcessing1 : Job :=
  { samplePending with state := JState.processing, attempts := 1 }

/-- A job orphaned in `processing` with a stale `available_at`. -/
def sampleStale : Job :=
  { samplePending with state := JState.processing, available_at := 5 }

/-- A successfully finished job. -/
def sampleCompleted : Job :=
  { samplePending with state := JState.completed }

/-- A job retired to the dead-letter queue. -/
def sampleDead : Job :=
  { samplePending with state := JState.dead, attempts := 5,
                       last_error := some "exit_code=1" }

/-! Helper lemmas shared by the claim theorems. -/

/-- Looking a job up by id commutes with an id-preserving row transformer. -/
theorem getJobById_map (f : Job → Job) (hf : ∀ j, (f j).id = j.id)
    (db : List Job) (jid : String) :
    getJobById (db.map f) jid = (getJobById db jid).map f := by
  induction db with
  | nil => rfl
  | cons hd tl ih =>
      by_cases h : hd.id = jid
      · simp [getJobById, List.find?_cons, hf, h]
      · simpa [getJobById, List.find?_cons, hf, h] using ih

/-- A pointwise relation between a list and its image under `map`. -/
theorem forall₂_map_self {R : Job → Job → Prop} {f : Job → Job}
    {l : List Job} (h : ∀ a ∈ l, R a (f a)) : List.Forall₂ R l (l.map f) := by
  rw [List.forall₂_map_right_iff]
  exact List.forall₂_same.mpr h

/-- A selected row is a stored, eligible row of minimal `created_at`. -/
theorem selectStmt_some {db : List Job} {now : ℚ} {row : Job}
    (h : selectStmt db now = some row) :
    row ∈ db ∧ jobEligible now row = true ∧
      ∀ j ∈ db, jobEligible now j = true → row.created_at ≤ j.created_at := by
  have hmem : row ∈ db.filter (jobEligible now) :=
    List.argmin_mem (Option.mem_def.mpr h)
  have hrow := List.mem_filter.mp hmem
  refine ⟨hrow.1, hrow.2, fun j hj hje => ?_⟩
  exact List.le_of_mem_argmin (List.mem_filter.mpr ⟨hj, hje⟩) (Option.mem_def.mpr h)

/-- A conditional claim update that changed zero rows left the table as it
was: no row both carries the id and is still `pending`. -/
theorem updateClaimStmt_zero {db : List Job} {now : ℚ} {jid : String}
    (h : (updateClaimStmt db now jid).1 = 0) :
    (updateClaimStmt db now jid).2 = db := by
  have hnone : ∀ a ∈ db, ¬ claimMatches jid a := List.countP_eq_zero.mp h
  have hmap : db.map (fun j => if claimMatches jid j then claimedRow now j else j)
      = db.map (fun j => j) := by
    refine List.map_congr_left fun a ha => ?_
    simp [hnone a ha]
  show db.map _ = db
  rw [hmap]
  exact List.map_id' db

/-- A claim transaction that returned no job id left the store unchanged. -/
theorem claimTxn_none {db db' : List Job} {now : ℚ}
    (h : claimTxn db now = (none, db')) : db' = db := by
  unfold claimTxn claimTxnOn at h
  cases hsel : selectStmt db now with
  | none =>
      rw [hsel] at h
      exact (congrArg Prod.snd h).symm
  | some row =>
      rw [hsel] at h
      dsimp only at h
      by_cases hz : (updateClaimStmt db now row.id).1 = 0
      · rw [if_pos hz] at h
        have h2 : (updateClaimStmt db now row.id).2 = db' := congrArg Prod.snd h
        rw [← h2, updateClaimStmt_zero hz]
      · rw [if_neg hz] at h
        exact absurd (congrArg Prod.fst h) (by simp)

/-- A successful claim transaction returns the id of the selected row and
the table produced by the conditional claim update for that id. -/
theorem claimTxn_some {db db' : List Job} {now : ℚ} {jid : String}
    (h : claimTxn db now = (some jid, db')) :
    ∃ row, selectStmt db now = some row ∧ row.id = jid ∧
      db' = (updateClaimStmt db now jid).2 := by
  unfold claimTxn claimTxnOn at h
  cases hsel : selectStmt db now with
  | none =>
      rw [hsel] at h
      exact absurd (congrArg Prod.fst h) (by simp)
  | some row =>
      rw [hsel] at h
      dsimp only at h
      by_cases hz : (updateClaimStmt db now row.id).1 = 0
      · rw [if_pos hz] at h
        exact absurd (congrArg Prod.fst h) (by simp)
      · rw [if_neg hz] at h
        have hjid : row.id = jid := Option.some.inj (congrArg Prod.fst h)
        refine ⟨row, rfl, hjid, ?_⟩
        rw [← hjid]
        exact (congrArg Prod.snd h).symm

/-- The recovery sweep leaves no record in `processing`. -/
theorem recoverStmt_no_processing (db : List Job) (now : ℚ) :
    ∀ j' ∈ recoverStmt db now, j'.state ≠ JState.processing := by
  intro j' hj'
  obtain ⟨j, _, rfl⟩ := List.mem_map.mp hj'
  by_cases h : j.state = JState.processing <;> simp [h]

/-- In a store with no `processing` record, a successful claim leaves
`processing` records only with the claimed id. -/
theorem claimTxn_some_processing {db db' : List Job} {now : ℚ} {jid : String}
    (hnp : ∀ j ∈ db, j.state ≠ JState.processing)
    (h : claimTxn db now = (some jid, db')) :
    ∀ j' ∈ db', j'.state = JState.processing → j'.id = jid := by
  obtain ⟨row, _, _, hdb⟩ := claimTxn_some h
  subst hdb
  intro j' hj' hst
  obtain ⟨j, hj, rfl⟩ := List.mem_map.mp hj'
  by_cases hm : claimMatches jid j = true
  · rw [if_pos hm]
    have hparts := (Bool.and_eq_true _ _).mp hm
    simpa [claimedRow] using of_decide_eq_true hparts.1
  · rw [if_neg hm] at hst
    exact absurd hst (hnp j hj)

/-- A post-execution update writing a non-`processing` state leaves no
`processing` record behind, provided any `processing` record carried the
updated id. -/
theorem updateJobStmt_no_processing {db : List Job} {st : JState}
    {t : ℚ} {e : Option String} {a : ℚ} {i : String}
    (hst : st ≠ JState.processing)
    (hp : ∀ j ∈ db, j.state = JState.processing → j.id = i) :
    ∀ j' ∈ updateJobStmt db st t e a i, j'.state ≠ JState.processing := by
  intro j' hj' hs
  obtain ⟨j, hj, rfl⟩ := List.mem_map.mp hj'
  by_cases h : j.id = i
  · rw [if_pos (by simpa using h)] at hs
    exact hst hs
  · rw [if_neg (by simpa using h)] at hs
    exact h (hp j hj hs)

/-- Persisting the outcome of an executed job removes the last `processing`
record this worker could have left behind. -/
theorem execStep_no_processing {db : List Job} {jid : String} {rc : Int}
    {now base : ℚ} (hp : ∀ j ∈ db, j.state = JState.processing → j.id = jid) :
    ∀ j' ∈ execStep db jid rc now base, j'.state ≠ JState.processing := by
  intro j' hj'
  unfold execStep at hj'
  cases hget : getJobById db jid with
  | none =>
      rw [hget] at hj'
      intro hst
      have hid := hp j' hj' hst
      have : ∀ j ∈ db, ¬ (decide (j.id = jid) = true) :=
        List.find?_eq_none.mp hget
      exact this j' hj' (by simpa using hid)
  | some job =>
      have hget' : db.find? (fun j => decide (j.id = jid)) = some job := hget
      have hpj := List.find?_some hget'
      have hjobid : job.id = jid := by simpa using hpj
      rw [hget] at hj'
      dsimp only at hj'
      have hp' : ∀ j ∈ db, j.state = JState.processing → j.id = job.id := by
        intro j hj hs
        rw [hjobid]
        exact hp j hj hs
      split_ifs at hj' with h1 h2
      · exact updateJobStmt_no_processing (by simp) hp' j' hj'
      · exact updateJobStmt_no_processing (by simp) hp' j' hj'
      · exact updateJobStmt_no_processing (by simp) hp' j' hj'

/-- Looking up any id after `updateJobStmt` sees the update applied to the
row previously found under that id (the update keys on `id` alone). -/
theorem getJobById_updateJobStmt (db : List Job) (st : JState) (t : ℚ)
    (e : Option String) (a : ℚ) (i jid : String) :
    getJobById (updateJobStmt db st t e a i) jid =
      (getJobById db jid).map fun j =>
        if decide (j.id = i) then
          { j with state := st, updated_at := t, last_error := e,
                   available_at := a }
        else j :=
  getJobById_map _ (fun j => by by_cases h : j.id = i <;> simp [h]) db jid

/-- In a table whose ids are distinct, two stored rows with the same id are
the same row. -/
theorem job_id_injective {db : List Job} (hnd : (db.map Job.id).Nodup)
    {x y : Job} (hx : x ∈ db) (hy : y ∈ db) (h : x.id = y.id) : x = y :=
  List.inj_on_of_nodup_map hnd hx hy h

/-! Claim theorems. -/

/-- C1: within one transaction, the claim selects the job with the smallest
`created_at` among records with `state = pending` and `available_at <= now`;
if no such record exists it claims nothing and leaves the store unchanged;
otherwise it transitions that job to `processing` and increments `attempts`
by exactly 1 via a conditional update whose precondition re-checks
`state = pending`; and whenever that conditional update affects zero
records, the transaction's outcome is "no job claimed" with the store
untouched, not an error. -/
theorem claim_C1_claim_protocol (db : List Job) (now : ℚ) :
    ((∀ j ∈ db, jobEligible now j = false) → claimTxn db now = (none, db)) ∧
    (∀ jid db', claimTxn db now = (some jid, db') →
      ∃ job ∈ db, job.id = jid ∧ jobEligible now job = true ∧
        (∀ j ∈ db, jobEligible now j = true → job.created_at ≤ j.created_at) ∧
        db' = db.map fun j =>
          if claimMatches jid j then claimedRow now j else j) ∧
    (∀ updDb row, selectStmt db now = some row →
      (updateClaimStmt updDb now row.id).1 = 0 →
      claimTxnOn db updDb now = (none, updDb)) ∧
    (∀ updDb jid, (updateClaimStmt updDb now jid).1 = 0 →
      (updateClaimStmt updDb now jid).2 = updDb) := by
  refine ⟨?_, ?_, ?_, ?_⟩
  · intro h
    have hfilter : db.filter (jobEligible now) = [] :=
      List.filter_eq_nil_iff.mpr (by intro a ha; simp [h a ha])
    unfold claimTxn claimTxnOn selectStmt
    rw [hfilter]
    rfl
  · intro jid db' h
    obtain ⟨row, hsel, hjid, hdb⟩ := claimTxn_some h
    obtain ⟨hmem, helig, hmin⟩ := selectStmt_some hsel
    exact ⟨row, hmem, hjid, helig, hmin, by rw [hdb]; rfl⟩
  · intro updDb row hsel hz
    unfold claimTxnOn
    rw [hsel]
    dsimp only
    rw [if_pos hz, updateClaimStmt_zero hz]
  · intro updDb jid hz
    exact updateClaimStmt_zero hz

/-- Witness for C1: in a one-job store the claim transaction picks the lone
eligible job, which is oldest, and produces exactly the conditionally
updated table. -/
theorem claim_C1_claim_protocol_witness :
    ∃ job ∈ [samplePending], job.id = "a" ∧ jobEligible 0 job = true ∧
      (∀ j ∈ [samplePending], jobEligible 0 j = true →
        job.created_at ≤ j.created_at) ∧
      [claimedRow 0 samplePending] = [samplePending].map fun j =>
        if claimMatches "a" j then claimedRow 0 j else j :=
  (claim_C1_claim_protocol [samplePending] 0).2.1 "a"
    [claimedRow 0 samplePending] (by decide)

/-- C2: for a claimed job whose execution fails (non-zero exit code), with
`attempts` the post-increment value read back after the claim: if
`attempts < max_retries` the job becomes `pending` with `last_error` set
and `available_at = now + backoff(attempts)`; if `attempts >= max_retries`
it becomes `dead` with `last_error` set; and (for a store with distinct
ids) any record that enters `dead` in this step has
`attempts >= max_retries` at that moment. -/
theorem claim_C2_failure_transitions (db : List Job) (jid : String)
    (job : Job) (rc : Int) (now base : ℚ)
    (hget : getJobById db jid = some job) (hrc : rc ≠ 0) :
    (job.attempts < job.max_retries →
      getJobById (execStep db jid rc now base) jid =
        some { job with state := JState.pending, updated_at := now,
                        last_error := some (errString rc),
                        available_at := now + base ^ job.attempts * 1000 }) ∧
    (job.max_retries ≤ job.attempts →
      getJobById (execStep db jid rc now base) jid =
        some { job with state := JState.dead, updated_at := now,
                        last_error := some (errString rc),
                        available_at := now }) ∧
    ((db.map Job.id).Nodup →
      List.Forall₂
        (fun r r' => r.state ≠ JState.dead → r'.state = JState.dead →
          r'.max_retries ≤ r'.attempts)
        db (execStep db jid rc now base)) := by
  have hget' : db.find? (fun j => decide (j.id = jid)) = some job := hget
  have hpj := List.find?_some hget'
  have hjobid : job.id = jid := by simpa using hpj
  have hjobmem : job ∈ db := List.mem_of_find?_eq_some hget'
  refine ⟨?_, ?_, ?_⟩
  · intro hlt
    unfold execStep
    rw [hget]
    dsimp only
    rw [if_neg hrc, if_neg (not_le.mpr hlt), getJobById_updateJobStmt, hget]
    simp
  · intro hle
    unfold execStep
    rw [hget]
    dsimp only
    rw [if_neg hrc, if_pos hle, getJobById_updateJobStmt, hget]
    simp
  · intro hnd
    unfold execStep
    rw [hget]
    dsimp only
    rw [if_neg hrc]
    by_cases hle : job.max_retries ≤ job.attempts
    · rw [if_pos hle]
      refine forall₂_map_self fun a ha hnd' hdead' => ?_
      by_cases hid : a.id = job.id
      · have haj : a = job := job_id_injective hnd ha hjobmem hid
        subst haj
        simpa using hle
      · rw [if_neg (by simpa using hid)] at hdead'
        exact absurd hdead' hnd'
    · rw [if_neg hle]
      refine forall₂_map_self fun a ha hnd' hdead' => ?_
      by_cases hid : a.id = job.id
      · rw [if_pos (by simpa using hid)] at hdead'
        simp at hdead'
      · rw [if_neg (by simpa using hid)] at hdead'
        exact absurd hdead' hnd'

/-- Witness for C2: a job on its third attempt with a budget of three
retries fails once more and is recorded dead with the error text. -/
theorem claim_C2_failure_transitions_witness :
    getJobById (execStep [sampleProcessing3] "a" 1 7 2) "a" =
      some { sampleProcessing3 with
               state := JState.dead, updated_at := 7,
               last_error := some (errString 1), available_at := 7 } :=
  (claim_C2_failure_transitions [sampleProcessing3] "a" sampleProcessing3
    1 7 2 (by decide) (by decide)).2.1 (by decide)

/-- C3 counterexample: enqueue an always-failing command with
`max_retries = 1` and run one claim/execute cycle. The claim says the first
failure leaves the job `pending` with `available_at` in the future; the
code computes post-increment `attempts = 1 >= max_retries = 1` and moves
the job straight to `dead`. -/
theorem claim_C3_counterexample :
    scenarioOneCycle "false" (some 1)
        { backoff_base := none, default_max_retries := none } 1 =
      some JState.dead ∧
    some JState.dead ≠ some JState.pending := by
  exact ⟨by decide, by decide⟩

/-- C3 (amended): a job enqueued with an always-succeeding command reaches
`completed` after one claim/execute cycle; a job enqueued with an
always-failing command and `max_retries = 1` is moved to `dead` by its
first failure (post-increment `attempts = 1` already reaches
`max_retries`), with no intermediate `pending` retry. -/
theorem claim_C3_scenarios (cmd : String) (cfg : Config) (rc : Int)
    (hcmd : cmd ≠ "") (hrc : rc ≠ 0) :
    scenarioOneCycle cmd none cfg 0 = some JState.completed ∧
    scenarioOneCycle cmd (some 1) cfg rc = some JState.dead := by
  have hj : jsStrOr (some "j") "gen" = "j" := by decide
  constructor
  · unfold scenarioOneCycle enqueueJson
    dsimp only
    rw [if_neg hcmd, hj]
    simp only [List.any_nil, Bool.false_eq_true, if_false, ite_false]
    unfold claimTxn claimTxnOn selectStmt
    simp only [List.filter, jobEligible]
    norm_num
    simp only [updateClaimStmt, claimMatches, claimedRow, List.countP,
      List.countP.go, List.map]
    norm_num
    unfold execStep getJobById
    simp only [List.find?]
    norm_num
  · unfold scenarioOneCycle enqueueJson
    dsimp only
    rw [if_neg hcmd, hj]
    simp only [List.any_nil, Bool.false_eq_true, if_false, ite_false]
    unfold claimTxn claimTxnOn selectStmt
    simp only [List.filter, jobEligible]
    norm_num
    simp only [updateClaimStmt, claimMatches, claimedRow, List.countP,
      List.countP.go, List.map]
    norm_num
    unfold execStep getJobById
    simp only [List.find?]
    norm_num [effectiveMaxRetries, hrc, updateJobStmt, errString]

/-- Witness for C3: the two scenarios at the concrete command `"run"`,
default configuration, and failing exit code 1. -/
theorem claim_C3_scenarios_witness :
    scenarioOneCycle "run" none
        { backoff_base := none, default_max_retries := none } 0 =
      some JState.completed ∧
    scenarioOneCycle "run" (some 1)
        { backoff_base := none, default_max_retries := none } 1 =
      some JState.dead :=
  claim_C3_scenarios "run" { backoff_base := none, default_max_retries := none }
    1 (by decide) (by decide)

/-- C4 counterexample: the recovery sweep run over a store holding one
orphaned `processing` record with `available_at = 5`, at current time 100,
moves the record to `pending` but leaves `available_at = 5`; the claim says
`available_at` is set to the current time 100. -/
theorem claim_C4_counterexample :
    (recoverStmt [sampleStale] 100).map Job.available_at = [5] ∧
    (recoverStmt [sampleStale] 100).map Job.state = [JState.pending] ∧
    (5 : ℚ) ≠ 100 := by
  exact ⟨by decide, by decide, by decide⟩

/-- C4 (amended): the recovery sweep transitions every `processing` record
back to `pending` and sets that record's `updated_at` (not `available_at`)
to the current time; `available_at` is left unchanged, and records not in
`processing` are untouched. Afterwards no record is in `processing`. -/
theorem claim_C4_recovery_sweep (db : List Job) (now : ℚ) :
    List.Forall₂
      (fun j j' =>
        (j.state = JState.processing →
          j' = { j with state := JState.pending, updated_at := now }) ∧
        (j.state ≠ JState.processing → j' = j) ∧
        j'.available_at = j.available_at)
      db (recoverStmt db now) ∧
    ∀ j' ∈ recoverStmt db now, j'.state ≠ JState.processing := by
  constructor
  · refine forall₂_map_self fun a _ => ?_
    by_cases h : a.state = JState.processing
    · exact ⟨fun _ => by simp [h], fun hn => absurd h hn, by simp [h]⟩
    · exact ⟨fun hp => absurd hp h, fun _ => by simp [h], by simp [h]⟩
  · exact recoverStmt_no_processing db now

/-- Witness for C4: the sweep applied to the orphaned sample record. -/
theorem claim_C4_recovery_sweep_witness :
    List.Forall₂
      (fun j j' =>
        (j.state = JState.processing →
          j' = { j with state := JState.pending, updated_at := 100 }) ∧
        (j.state ≠ JState.processing → j' = j) ∧
        j'.available_at = j.available_at)
      [sampleStale] (recoverStmt [sampleStale] 100) ∧
    ∀ j' ∈ recoverStmt [sampleStale] 100, j'.state ≠ JState.processing :=
  claim_C4_recovery_sweep [sampleStale] 100

/-- C5 counterexample: the post-execution update statement applied to a
record whose stored state (`completed`) does not match the transition's
from-state still rewrites the record to `dead`; the claim says such a
mismatched transition changes nothing. -/
theorem claim_C5_counterexample :
    sampleCompleted.state ≠ JState.processing ∧
    (updateJobStmt [sampleCompleted] JState.dead 9 (some (errString 1)) 9
        "a").map Job.state = [JState.dead] ∧
    [JState.dead] ≠ [JState.completed] := by
  exact ⟨by decide, by decide, by decide⟩

/-- C5 (amended): the `completed` / retry / `dead` transitions are
single-record updates guarded only by the record's id — a matching record
is overwritten regardless of its current state, so a stale read can
overwrite another actor's transition; only the requeue operation checks the
record's state (`dead`), via a separate prior read, and rejects non-dead
records with no side effect. -/
theorem claim_C5_conditional_updates (db : List Job) (st : JState) (t : ℚ)
    (e : Option String) (a : ℚ) (i : String) (now : ℚ) :
    List.Forall₂
      (fun j j' =>
        (j.id = i → j' = { j with state := st, updated_at := t,
                                  last_error := e, available_at := a }) ∧
        (j.id ≠ i → j' = j))
      db (updateJobStmt db st t e a i) ∧
    ((¬ ∃ j ∈ db, j.id = i ∧ j.state = JState.dead) →
      dlqRetry db i now = (false, db)) := by
  constructor
  · refine forall₂_map_self fun j _ => ?_
    by_cases h : j.id = i
    · exact ⟨fun _ => by simp [h], fun hn => absurd h hn⟩
    · exact ⟨fun hp => absurd hp h, fun _ => by simp [h]⟩
  · intro hno
    unfold dlqRetry
    cases hf : db.find?
        (fun j => decide (j.id = i) && decide (j.state = JState.dead)) with
    | none => rfl
    | some x =>
        exfalso
        have hx := List.find?_some hf
        have hmem := List.mem_of_find?_eq_some hf
        have hparts := (Bool.and_eq_true _ _).mp hx
        exact hno ⟨x, hmem, of_decide_eq_true hparts.1,
          of_decide_eq_true hparts.2⟩

/-- Witness for C5: the id-guarded overwrite on a one-record store, and the
rejected requeue of a record that is not dead. -/
theorem claim_C5_conditional_updates_witness :
    List.Forall₂
      (fun j j' =>
        (j.id = "a" → j' = { j with state := JState.dead, updated_at := 9,
                                    last_error := some (errString 1),
                                    available_at := 9 }) ∧
        (j.id ≠ "a" → j' = j))
      [sampleCompleted]
      (updateJobStmt [sampleCompleted] JState.dead 9 (some (errString 1)) 9
        "a") ∧
    dlqRetry [sampleCompleted] "a" 9 = (false, [sampleCompleted]) :=
  ⟨(claim_C5_conditional_updates [sampleCompleted] JState.dead 9
      (some (errString 1)) 9 "a" 9).1,
   (claim_C5_conditional_updates [sampleCompleted] JState.dead 9
      (some (errString 1)) 9 "a" 9).2 (by decide)⟩

/-- C6: after a successful claim (distinct ids assumed, as `id` is the
primary key), the claimed row carries post-increment
`attempts = attempts_at_claim + 1`; if the execution then fails while
`attempts` is below `max_retries`, the recorded `available_at` equals the
failure time plus `backoff_base ^ attempts` seconds (exponent is the
post-increment value, so a first failure uses exponent 1), where
`backoff_base` is the value read from the configuration at worker
startup. -/
theorem claim_C6_backoff_exponent (db db' : List Job) (now : ℚ)
    (cfg : Config) (jid : String) (hnd : (db.map Job.id).Nodup)
    (hclaim : claimTxn db now = (some jid, db')) :
    ∃ job₀, getJobById db jid = some job₀ ∧ job₀.state = JState.pending ∧
      getJobById db' jid = some (claimedRow now job₀) ∧
      (claimedRow now job₀).attempts = job₀.attempts + 1 ∧
      ∀ rc : Int, rc ≠ 0 → ∀ now2 : ℚ,
        job₀.attempts + 1 < job₀.max_retries →
        (getJobById (execStep db' jid rc now2 (getBackoffBase cfg))
            jid).map Job.available_at =
          some (now2 + getBackoffBase cfg ^ (job₀.attempts + 1) * 1000) := by
  obtain ⟨row, hsel, hjid, hdb⟩ := claimTxn_some hclaim
  obtain ⟨hmem, helig, _⟩ := selectStmt_some hsel
  have hpend : row.state = JState.pending := by
    have hparts := (Bool.and_eq_true _ _).mp helig
    exact of_decide_eq_true hparts.1
  have hget : getJobById db jid = some row := by
    have hsome : (db.find? (fun j => decide (j.id = jid))).isSome :=
      List.find?_isSome.mpr ⟨row, hmem, by simp [hjid]⟩
    obtain ⟨j₀, hj₀⟩ := Option.isSome_iff_exists.mp hsome
    have hj₀id : j₀.id = jid := by simpa using List.find?_some hj₀
    have hj₀mem : j₀ ∈ db := List.mem_of_find?_eq_some hj₀
    have : j₀ = row := job_id_injective hnd hj₀mem hmem (hj₀id.trans hjid.symm)
    rw [show getJobById db jid = some j₀ from hj₀, this]
  have hmatch : claimMatches jid row = true := by
    simp [claimMatches, hjid, hpend]
  have hget' : getJobById db' jid = some (claimedRow now row) := by
    rw [hdb]
    show getJobById (db.map fun j =>
      if claimMatches jid j then claimedRow now j else j) jid = _
    rw [getJobById_map _ (fun j => by
      by_cases h : claimMatches jid j = true <;> simp [h, claimedRow]) db jid]
    rw [hget]
    simp [hmatch]
  refine ⟨row, hget, hpend, hget', rfl, ?_⟩
  intro rc hrc now2 hlt
  have hnle : ¬ (claimedRow now row).max_retries ≤ (claimedRow now row).attempts := by
    simpa [claimedRow] using not_le.mpr hlt
  unfold execStep
  rw [hget']
  dsimp only
  rw [if_neg hrc, if_neg hnle, getJobById_updateJobStmt, hget']
  simp [claimedRow]

/-- Witness for C6: a fresh job claimed at time 0 with `backoff_base = 2`
fails once; the exponent is the post-increment attempt count 1 and the
computed delay is 2000 milliseconds. -/
theorem claim_C6_backoff_exponent_witness :
    (∃ job₀, getJobById [samplePending] "a" = some job₀ ∧
      job₀.state = JState.pending ∧
      getJobById [claimedRow 0 samplePending] "a" =
        some (claimedRow 0 job₀) ∧
      (claimedRow 0 job₀).attempts = job₀.attempts + 1 ∧
      ∀ rc : Int, rc ≠ 0 → ∀ now2 : ℚ,
        job₀.attempts + 1 < job₀.max_retries →
        (getJobById
            (execStep [claimedRow 0 samplePending] "a" rc now2
              (getBackoffBase
                { backoff_base := some 2, default_max_retries := none }))
            "a").map Job.available_at =
          some (now2 +
            getBackoffBase
                { backoff_base := some 2, default_max_retries := none } ^
              (job₀.attempts + 1) * 1000)) ∧
    (0 : ℚ) + 2 ^ (0 + 1) * 1000 = 2000 :=
  ⟨claim_C6_backoff_exponent [samplePending] [claimedRow 0 samplePending] 0
      { backoff_base := some 2, default_max_retries := none } "a"
      (by decide) (by decide),
   by norm_num⟩

/-- Requeueing an id that is stored with state `dead` rewrites that record
to an immediately eligible fresh `pending` record and reports success. -/
theorem dlqRetry_found {db : List Job} {jid : String} {now : ℚ}
    (h : ∃ j ∈ db, j.id = jid ∧ j.state = JState.dead) :
    dlqRetry db jid now =
      (true, db.map fun j =>
        if decide (j.id = jid) then
          { j with state := JState.pending, attempts := 0,
                   updated_at := now, available_at := now }
        else j) := by
  obtain ⟨x, hx, hxid, hxdead⟩ := h
  unfold dlqRetry
  cases hf : db.find?
      (fun j => decide (j.id = jid) && decide (j.state = JState.dead)) with
  | none =>
      exfalso
      have := List.find?_eq_none.mp hf x hx
      simp [hxid, hxdead] at this
  | some y => rfl

/-- C7: if the store holds a record with the requested id in state `dead`,
requeue sets it to `pending`, resets `attempts` to 0, and sets
`available_at` to the current time, making it immediately eligible; if the
id is absent or the record is not `dead`, requeue reports not-found and no
record in the store is modified. -/
theorem claim_C7_requeue_dead_only (db : List Job) (jid : String) (now : ℚ) :
    ((∃ j ∈ db, j.id = jid ∧ j.state = JState.dead) →
      dlqRetry db jid now =
        (true, db.map fun j =>
          if decide (j.id = jid) then
            { j with state := JState.pending, attempts := 0,
                     updated_at := now, available_at := now }
          else j) ∧
      ∀ j' ∈ (dlqRetry db jid now).2, j'.id = jid →
        j'.state = JState.pending ∧ j'.attempts = 0 ∧
        j'.available_at = now ∧ jobEligible now j' = true) ∧
    ((¬ ∃ j ∈ db, j.id = jid ∧ j.state = JState.dead) →
      dlqRetry db jid now = (false, db)) := by
  constructor
  · intro h
    have hfound := @dlqRetry_found db jid now h
    refine ⟨hfound, ?_⟩
    intro j' hj' hid
    rw [hfound] at hj'
    obtain ⟨j, hj, rfl⟩ := List.mem_map.mp hj'
    by_cases hm : j.id = jid
    · rw [if_pos (by simpa using hm)]
      refine ⟨rfl, rfl, rfl, ?_⟩
      simp [jobEligible]
    · rw [if_neg (by simpa using hm)] at hid ⊢
      exact absurd hid hm
  · intro hno
    unfold dlqRetry
    cases hf : db.find?
        (fun j => decide (j.id = jid) && decide (j.state = JState.dead)) with
    | none => rfl
    | some x =>
        exfalso
        have hx := List.find?_some hf
        have hmem := List.mem_of_find?_eq_some hf
        have hparts := (Bool.and_eq_true _ _).mp hx
        exact hno ⟨x, hmem, of_decide_eq_true hparts.1,
          of_decide_eq_true hparts.2⟩

/-- Witness for C7: requeueing the sample dead job succeeds and resets it;
requeueing an absent id is rejected with the store untouched. -/
theorem claim_C7_requeue_dead_only_witness :
    (dlqRetry [sampleDead] "a" 42 =
      (true, [sampleDead].map fun j =>
        if decide (j.id = "a") then
          { j with state := JState.pending, attempts := 0,
                   updated_at := 42, available_at := 42 }
        else j) ∧
      ∀ j' ∈ (dlqRetry [sampleDead] "a" 42).2, j'.id = "a" →
        j'.state = JState.pending ∧ j'.attempts = 0 ∧
        j'.available_at = 42 ∧ jobEligible 42 j' = true) ∧
    dlqRetry [sampleDead] "zz" 42 = (false, [sampleDead]) :=
  ⟨(claim_C7_requeue_dead_only [sampleDead] "a" 42).1 (by decide),
   (claim_C7_requeue_dead_only [sampleDead] "zz" 42).2 (by decide)⟩

/-- The worker-loop invariant holds initially: the recovery sweep has
cleared every `processing` record. -/
theorem workerInv_init (db0 : List Job) (t0 : ℚ) :
    workerInv (workerInit db0 t0) := by
  unfold workerInv workerInit
  exact recoverStmt_no_processing db0 t0

/-- Each step of the worker loop preserves the invariant. -/
theorem workerInv_step {s s' : WState} (hstep : WStep s s')
    (hinv : workerInv s) : workerInv s' := by
  cases hstep with
  | signal =>
      unfold workerInv at hinv ⊢
      dsimp only
      exact hinv
  | exitLoop hph hflag =>
      unfold workerInv at hinv ⊢
      rw [hph] at hinv
      dsimp only at hinv ⊢
      exact hinv
  | claimNone now db' hph hflag hclaim =>
      unfold workerInv at hinv ⊢
      rw [hph] at hinv
      dsimp only at hinv ⊢
      rw [hph]
      dsimp only
      rw [claimTxn_none hclaim]
      exact hinv
  | claimSome now jid db' hph hflag hclaim =>
      unfold workerInv at hinv ⊢
      rw [hph] at hinv
      dsimp only at hinv ⊢
      exact claimTxn_some_processing hinv hclaim
  | finish jid rc now base hph =>
      unfold workerInv at hinv ⊢
      rw [hph] at hinv
      dsimp only at hinv ⊢
      exact execStep_no_processing hinv

/-- C8: from any worker start (recovery sweep, clear flag, top of loop),
along any interleaving of loop steps and termination signals, whenever the
worker has exited no job is left in state `processing`: the claimed job's
final transition is persisted within the same iteration, and the shutdown
flag is observed only at loop-iteration boundaries. -/
theorem claim_C8_graceful_shutdown (db0 : List Job) (t0 : ℚ) (s : WState)
    (h : Relation.ReflTransGen WStep (workerInit db0 t0) s)
    (hx : s.phase = WPhase.exited) :
    ∀ j ∈ s.db, j.state ≠ JState.processing := by
  have hinv : workerInv s := by
    clear hx
    induction h with
    | refl => exact workerInv_init db0 t0
    | tail hsteps hstep ih => exact workerInv_step hstep ih
  unfold workerInv at hinv
  rw [hx] at hinv
  exact hinv

/-- Witness for C8: a worker starts over a store holding one orphaned
`processing` record, receives a signal before claiming anything, and exits;
no record is left in `processing`. -/
theorem claim_C8_graceful_shutdown_witness :
    ({ sampleStale with state := JState.pending, updated_at := 0 } : Job).state
      ≠ JState.processing :=
  claim_C8_graceful_shutdown [sampleStale] 0
    { db := recoverStmt [sampleStale] 0, phase := WPhase.exited,
      shuttingDown := true }
    (Relation.ReflTransGen.tail
      (Relation.ReflTransGen.tail Relation.ReflTransGen.refl
        (WStep.signal (workerInit [sampleStale] 0)))
      (WStep.exitLoop _ rfl rfl))
    rfl
    { sampleStale with state := JState.pending, updated_at := 0 }
    (by decide)

/-- C9: an enqueue descriptor that explicitly supplies `max_retries = 0`
creates a job whose `max_retries` equals the configured default (the
JavaScript `||` treats the explicit 0 as absent). -/
theorem claim_C9_zero_max_retries (desc : EnqueueDesc) (genId : String)
    (cfg : Config) (ts : ℚ) (db db' : List Job)
    (hmr : desc.max_retries = some 0)
    (hok : enqueueJson desc genId cfg ts db = Except.ok db') :
    ∃ job : Job, db' = db ++ [job] ∧
      job.max_retries = getDefaultMaxRetries cfg := by
  unfold enqueueJson at hok
  cases hc : desc.command with
  | none =>
      rw [hc] at hok
      exact Except.noConfusion hok
  | some c =>
      rw [hc] at hok
      dsimp only at hok
      by_cases hce : c = ""
      · rw [if_pos hce] at hok
        exact Except.noConfusion hok
      · rw [if_neg hce] at hok
        by_cases hdup : db.any fun j => decide (j.id = jsStrOr desc.id genId)
        · rw [if_pos hdup] at hok
          exact Except.noConfusion hok
        · rw [if_neg hdup] at hok
          refine ⟨_, (Except.ok.inj hok).symm, ?_⟩
          simp [effectiveMaxRetries, hmr]

/-- Witness for C9: enqueueing with an explicit `max_retries = 0` under a
configured default of 7 produces a job with `max_retries = 7`. -/
theorem claim_C9_zero_max_retries_witness :
    ∃ job : Job,
      [{ id := "b", command := "x", state := JState.pending, attempts := 0,
         max_retries := 7, created_at := 0, updated_at := 0,
         available_at := 0, last_error := none }] = [] ++ [job] ∧
      job.max_retries =
        getDefaultMaxRetries
          { backoff_base := none, default_max_retries := some 7 } :=
  claim_C9_zero_max_retries
    { id := some "b", command := some "x", max_retries := some 0 } "gen"
    { backoff_base := none, default_max_retries := some 7 } 0 [] _ rfl rfl

/-- C10: a requeue modifies only `state`, `attempts`, `updated_at` and
`available_at` of the matching record: `id`, `command`, `max_retries`,
`created_at` and `last_error` are preserved for every record in the store,
whether or not the requeue succeeds — in particular the requeued job still
carries its final failure text in `last_error`. -/
theorem claim_C10_requeue_frame (db : List Job) (jid : String) (now : ℚ) :
    List.Forall₂
      (fun j j' => j'.id = j.id ∧ j'.command = j.command ∧
        j'.max_retries = j.max_retries ∧ j'.created_at = j.created_at ∧
        j'.last_error = j.last_error)
      db (dlqRetry db jid now).2 := by
  unfold dlqRetry
  cases hf : db.find?
      (fun j => decide (j.id = jid) && decide (j.state = JState.dead)) with
  | none =>
      dsimp only
      exact List.forall₂_same.mpr fun a _ => ⟨rfl, rfl, rfl, rfl, rfl⟩
  | some x =>
      dsimp only
      refine forall₂_map_self fun a _ => ?_
      by_cases h : a.id = jid <;> simp [h]

/-- Witness for C10: the frame condition evaluated on the sample dead job;
its `last_error` text survives the requeue. -/
theorem claim_C10_requeue_frame_witness :
    List.Forall₂
      (fun j j' => j'.id = j.id ∧ j'.command = j.command ∧
        j'.max_retries = j.max_retries ∧ j'.created_at = j.created_at ∧
        j'.last_error = j.last_error)
      [sampleDead] (dlqRetry [sampleDead] "a" 42).2 :=
  claim_C10_requeue_frame [sampleDead] "a" 42

end QueueCtl
